import Mathlib

/-!
Shallow embedding of the time-windowed batch write buffers of the glukit
repository (Go package `streaming`): the mutable, fixed-capacity
`CalibrationReadStreamer` of `app/streaming/calibrationstreamer.go`
(grid-aligned windows, sticky error state, short-write compaction) and the
immutable, versioned `MealStreamer` (first-arrival windows), together with
an explicit-heap model of the `container.ImmutableList` backing the latter.

Timestamps are integers (Go `time.Time` instants, opaque unit); durations
are integers as well.  The underlying batch store (`glukitio` writer) is
modelled as a pure function passed to each operation, and each streamer
state carries a ghost log `sent` of the batches actually handed to the
store, which is exactly "the records the store receives".
-/

/-- Errors visible to the streamers: the short-write sentinel
(glukitio.ErrShortWrite) and opaque store-side errors. -/
inductive GError where
  | shortWrite
  | store (code : Nat)
deriving DecidableEq

/-- Go `time.Time.Truncate d`: rounds an instant down to a multiple of `d`
(identity for `d ≤ 0`, as in Go).  Lean's `%` on `Int` is `emod`, whose
result lies in `[0, d)` for `d > 0`, matching Go's rounding toward the
zero time. -/
def truncTime (t d : Int) : Int :=
  if d ≤ 0 then t else t - t % d

/-- A `model.CalibrationRead`: a timestamp plus an otherwise opaque payload
(the buffer never inspects anything but the time). -/
structure CalibrationRead where
  time : Int
  value : Int
deriving DecidableEq

/-- Modelled from the spec: the fixed capacity `BUFFER_SIZE` of the
calibration streamer's internal buffer
(`make([]model.CalibrationRead, BUFFER_SIZE)` in the constructor). The
constant's defining file is not among the provided sources; the spec only
requires a fixed positive size, and 200 is used here.  No theorem below
depends on the specific value. -/
def BUFFER_SIZE : Nat := 200

/-- Behaviour of the batch store consumed by the calibration streamer
(`glukitio.CalibrationBatchWriter.WriteCalibrationBatch`): given the
submitted batch, how many records were durably committed and which error,
if any, is reported. -/
abbrev CalStore := List CalibrationRead → Nat × Option GError

/-- State of `streaming.CalibrationReadStreamer`.  The Go pair `buf`/`n`
(fixed array of length `BUFFER_SIZE` plus fill count) is modelled as the
live prefix `buf` (so `n = buf.length`) together with the capacity
`bufLen`; `wr` is modelled by the pure store behaviour passed to each
operation plus the ghost log `sent` of batches handed to the store. -/
structure CalibrationReadStreamer where
  buf : List CalibrationRead
  bufLen : Nat
  t : Int
  d : Int
  err : Option GError
  sent : List (List CalibrationRead)
deriving DecidableEq

/-- Go `resetFirstReadOfBatch`: the anchor becomes the record's timestamp
truncated down to the nearest multiple of the configured duration. -/
def CalibrationReadStreamer.resetFirstReadOfBatch (b : CalibrationReadStreamer)
    (r : CalibrationRead) : CalibrationReadStreamer :=
  { b with t := truncTime r.time b.d }

/-- Go `CalibrationReadStreamer.Flush`.  Sticky error short-circuit, no-op
on an empty buffer, otherwise one store call; a commit count `< 1` with a
nil error is reclassified as `ErrShortWrite`; on error the committed
prefix is dropped and the remainder compacted to the front
(`copy(b.buf[0:b.n-n], b.buf[n:b.n]); b.n -= n`), and the error is
recorded as the fault state. -/
def CalibrationReadStreamer.Flush (W : CalStore) (b : CalibrationReadStreamer) :
    CalibrationReadStreamer × Option GError :=
  match b.err with
  | some e => (b, some e)
  | none =>
    if b.buf.length = 0 then (b, none)
    else
      let r := W b.buf
      let b₁ := { b with sent := b.sent ++ [b.buf] }
      match (if r.1 < 1 ∧ r.2 = none then some GError.shortWrite else r.2) with
      | some e => ({ b₁ with buf := b₁.buf.drop r.1, err := some e }, some e)
      | none => ({ b₁ with buf := [] }, none)

/-- The `for j, c := range p` loop of Go `WriteCalibrations`, with the
index `i` marking the start of the current window's still-uncopied
segment `p[i:j]`.  Go's `copy` into `b.buf[b.n:]` transfers
`min (bufLen - n)` and the source length records and silently drops the
rest, which is modelled by the `take (min ...)`. -/
def CalibrationReadStreamer.writeLoop (W : CalStore) (p : List CalibrationRead) :
    List CalibrationRead → CalibrationReadStreamer → Nat → Nat → Nat →
    CalibrationReadStreamer × Nat × Option GError
  | [], b, i, _, nn =>
    let src := p.drop i
    let k := min (b.bufLen - b.buf.length) src.length
    ({ b with buf := b.buf ++ src.take k }, nn + k, none)
  | c :: rest, b, i, j, nn =>
    if b.d ≤ c.time - b.t then
      let src := (p.drop i).take (j - i)
      let k := min (b.bufLen - b.buf.length) src.length
      let fr := CalibrationReadStreamer.Flush W { b with buf := b.buf ++ src.take k }
      match fr.1.err with
      | some e => (fr.1, nn + k, some e)
      | none =>
        CalibrationReadStreamer.writeLoop W p rest
          (fr.1.resetFirstReadOfBatch c) j (j + 1) (nn + k)
    else
      CalibrationReadStreamer.writeLoop W p rest b i (j + 1) nn

/-- Go `WriteCalibrations`.  When the buffer is empty the implementation
unconditionally reads `p[0]` to anchor the window; an empty input there is
an out-of-bounds access, modelled as `none`. -/
def CalibrationReadStreamer.WriteCalibrations (W : CalStore)
    (b : CalibrationReadStreamer) (p : List CalibrationRead) :
    Option (CalibrationReadStreamer × Nat × Option GError) :=
  if b.buf.length = 0 then
    match p with
    | [] => none
    | c :: _ => some (CalibrationReadStreamer.writeLoop W p p
        (b.resetFirstReadOfBatch c) 0 0 0)
  else
    some (CalibrationReadStreamer.writeLoop W p p b 0 0 0)

/-- Go `WriteCalibration`: sticky error short-circuit, then a one-record
`WriteCalibrations`. -/
def CalibrationReadStreamer.WriteCalibration (W : CalStore)
    (b : CalibrationReadStreamer) (c : CalibrationRead) :
    Option (CalibrationReadStreamer × Nat × Option GError) :=
  match b.err with
  | some e => some (b, 0, some e)
  | none => b.WriteCalibrations W [c]

/-- Go `CalibrationReadStreamer.Close`: flush the buffer, then flush the
inner writer.  The inner writer's own flush outcome is the parameter
`wrFlush`; it does not alter this streamer's state. -/
def CalibrationReadStreamer.Close (W : CalStore) (wrFlush : Option GError)
    (b : CalibrationReadStreamer) : CalibrationReadStreamer × Option GError :=
  let fr := CalibrationReadStreamer.Flush W b
  match fr.2 with
  | some e => (fr.1, some e)
  | none => (fr.1, wrFlush)

/-- Go `NewCalibrationReadStreamerDuration`: zero-valued state except for
the freshly allocated buffer of length `BUFFER_SIZE` and the configured
duration (the zero `time.Time` is instant 0 here). -/
def NewCalibrationReadStreamerDuration (bufferDuration : Int) : CalibrationReadStreamer :=
  { buf := [], bufLen := BUFFER_SIZE, t := 0, d := bufferDuration
    err := none, sent := [] }

/-- A `model.Meal`: a timestamp plus an otherwise opaque payload. -/
structure Meal where
  time : Int
  carbs : Int
deriving DecidableEq

/-- Behaviour of the batch store consumed by the meal streamer
(`glukitio.MealBatchWriter.WriteMealBatch`): the whole batch either
commits (no error) or fails with an error. -/
abbrev MealStore := List Meal → Option GError

/-- State of `streaming.MealStreamer`.  The `container.ImmutableList`
field `head` is modelled by its value: the window's records newest first
(so `head = []` is the nil list); `tailVal` is the pointed-to anchor
record; `wr` is modelled by the pure store behaviour plus the ghost log
`sent` of batches the store received. -/
structure MealStreamer where
  head : List Meal
  tailVal : Option Meal
  d : Int
  sent : List (List Meal)
deriving DecidableEq

/-- Go `newMealStreamerDuration` (the `wr` argument is replaced by the
ghost store log it carries). -/
def newMealStreamerDuration (head : List Meal) (tailVal : Option Meal) (d : Int)
    (sent : List (List Meal)) : MealStreamer :=
  { head := head, tailVal := tailVal, d := d, sent := sent }

/-- Go `NewMealStreamerDuration`. -/
def NewMealStreamerDuration (bufferDuration : Int) : MealStreamer :=
  newMealStreamerDuration [] none bufferDuration []

/-- Go `MealStreamer.Flush`.  `head.ReverseList()` plus
`ListToArrayOfMealReads` materialize the window oldest-first, which is
`head.reverse` here.  A non-empty batch is handed to the store: on error
the Go code returns `nil, err` (the buffered window is discarded), on
success a fresh empty streamer; an empty window is a store-free reset. -/
def MealStreamer.Flush (W : MealStore) (b : MealStreamer) :
    Option MealStreamer × Option GError :=
  let batch := b.head.reverse
  if 0 < batch.length then
    match W batch with
    | some e => (none, some e)
    | none => (some (newMealStreamerDuration [] none b.d (b.sent ++ [batch])), none)
  else
    (some (newMealStreamerDuration [] none b.d b.sent), none)

/-- The `for _, c := range p` loop of Go `WriteMeals`: open a new window
when `head` is nil, flush and re-open on a boundary crossing
(`t.Sub(s.tailVal.GetTime()) >= s.d`), otherwise cons onto the window.
Dereferencing a nil `tailVal` (or continuing from a nil streamer after an
error-free flush, which `Flush` never produces) would be a Go panic,
modelled as `none`. -/
def MealStreamer.writeMealsLoop (W : MealStore) :
    MealStreamer → List Meal → Option (Option MealStreamer × Option GError)
  | s, [] => some (some s, none)
  | s, c :: rest =>
    if s.head = [] then
      MealStreamer.writeMealsLoop W (newMealStreamerDuration [c] (some c) s.d s.sent) rest
    else
      match s.tailVal with
      | none => none
      | some a =>
        if s.d ≤ c.time - a.time then
          match MealStreamer.Flush W s with
          | (s₂, some e) => some (s₂, some e)
          | (some s₂, none) =>
            MealStreamer.writeMealsLoop W (newMealStreamerDuration [c] (some c) s₂.d s₂.sent) rest
          | (none, none) => none
        else
          MealStreamer.writeMealsLoop W
        (newMealStreamerDuration (c :: s.head) s.tailVal s.d s.sent) rest

/-- Go `WriteMeals`: start from a fresh copy of the receiver's state (the
`if err != nil` guard on the never-assigned local `err` is dead code) and
run the loop. -/
def MealStreamer.WriteMeals (W : MealStore) (b : MealStreamer) (p : List Meal) :
    Option (Option MealStreamer × Option GError) :=
  MealStreamer.writeMealsLoop W (newMealStreamerDuration b.head b.tailVal b.d b.sent) p

/-- Go `WriteMeal`: a one-record `WriteMeals`. -/
def MealStreamer.WriteMeal (W : MealStore) (b : MealStreamer) (c : Meal) :
    Option (Option MealStreamer × Option GError) :=
  b.WriteMeals W [c]

/-- Go `MealStreamer.Close`: flush the window, then flush the inner
writer (outcome `wrFlush`); on an inner-writer error the same window
state is returned alongside the error. -/
def MealStreamer.Close (W : MealStore) (wrFlush : Option GError) (b : MealStreamer) :
    Option MealStreamer × Option GError :=
  match MealStreamer.Flush W b with
  | (g, some e) => (g, some e)
  | (some g, none) => (some g, wrFlush)
  | (none, none) => (none, none)

/-- The always-successful calibration store: every submitted batch is
fully committed. -/
def WCok : CalStore := fun batch => (batch.length, none)

/-- The always-successful meal store. -/
def Wok : MealStore := fun _ => none

/-- The window-span property of the spec, calibration side: from the
chronologically first to the last record of a committed batch, strictly
less than `d` elapses. -/
def spanLtC (d : Int) (B : List CalibrationRead) : Prop :=
  ∀ h l, B.head? = some h → B.getLast? = some l → l.time - h.time < d

/-- The window-span property of the spec, meal side. -/
def spanLtM (d : Int) (B : List Meal) : Prop :=
  ∀ h l, B.head? = some h → B.getLast? = some l → l.time - h.time < d

/-- Modelled from the spec: a node of `container.ImmutableList` (the
package is not among the provided sources; the spec describes it as an
immutable, structurally-shared list whose appends must not alias or
retroactively change previously observed snapshots).  The heap is a list
of nodes addressed by index; `next` points to an earlier allocation. -/
structure MLNode where
  next : Option Nat
  value : Meal
deriving DecidableEq

/-- Modelled from the spec: `container.NewImmutableList(next, value)`
allocates a fresh node and never writes an existing one; allocation is
modelled as appending to the heap and returning the new node's address. -/
def NewImmutableList (h : List MLNode) (nxt : Option Nat) (v : Meal) :
    List MLNode × Nat :=
  (h ++ [⟨nxt, v⟩], h.length)

/-- Reads the records reachable from a node address, newest first.  The
fuel argument bounds the traversal so that the readout is structurally
recursive; on well-formed heaps (`heapWF`) any fuel above the address is
enough. -/
def nodesFrom (h : List MLNode) : Nat → Option Nat → List Meal
  | _, none => []
  | 0, some _ => []
  | fuel + 1, some a =>
    match h[a]? with
    | none => []
    | some nd => nd.value :: nodesFrom h fuel nd.next

/-- Well-formedness of the allocation heap: every node's `next` pointer
refers to a strictly earlier allocation, which is exactly what
`NewImmutableList` produces. -/
def heapWF (h : List MLNode) : Prop :=
  ∀ (i b : Nat) (nd : MLNode), h[i]? = some nd → nd.next = some b → b < i

/-- The heap-level view of `streaming.MealStreamer`: `head` is the actual
pointer (node address) into the shared structure. -/
structure MealStreamerH where
  head : Option Nat
  tailVal : Option Meal
  d : Int
deriving DecidableEq

/-- Heap-level Go `MealStreamer.Flush`: materialize the window oldest
first via `head.ReverseList()` and hand it to the store; the heap is only
read, never written. -/
def MealStreamerH.Flush (W : MealStore) (h : List MLNode) (b : MealStreamerH) :
    List MLNode × (Option MealStreamerH × Option GError) :=
  let batch := (nodesFrom h h.length b.head).reverse
  if 0 < batch.length then
    match W batch with
    | some e => (h, (none, some e))
    | none => (h, (some ⟨none, none, b.d⟩, none))
  else
    (h, (some ⟨none, none, b.d⟩, none))

/-- Heap-level `WriteMeals` loop: identical control flow to
`MealStreamer.writeMealsLoop`, but windows are built with
`NewImmutableList`, so each step allocates a new node instead of mutating
the structure any earlier snapshot points into. -/
def MealStreamerH.writeMealsLoopH (W : MealStore) :
    List MLNode → MealStreamerH → List Meal →
    List MLNode × (Option MealStreamerH × Option GError)
  | h, s, [] => (h, (some s, none))
  | h, s, c :: rest =>
    match s.head with
    | none =>
      let alloc := NewImmutableList h none c
      MealStreamerH.writeMealsLoopH W alloc.1 ⟨some alloc.2, some c, s.d⟩ rest
    | some _ =>
      match s.tailVal with
      | none => (h, (none, none))
      | some a =>
        if s.d ≤ c.time - a.time then
          match MealStreamerH.Flush W h s with
          | (h₁, (some s₂, none)) =>
            let alloc := NewImmutableList h₁ none c
            MealStreamerH.writeMealsLoopH W alloc.1 ⟨some alloc.2, some c, s₂.d⟩ rest
          | (h₁, (s₂, e)) => (h₁, (s₂, e))
        else
          let alloc := NewImmutableList h s.head c
          MealStreamerH.writeMealsLoopH W alloc.1 ⟨some alloc.2, s.tailVal, s.d⟩ rest

/-- Heap-level Go `WriteMeals`: run the loop on a fresh copy of the
receiver's state. -/
def MealStreamerH.writeMealsH (W : MealStore) (h : List MLNode)
    (b : MealStreamerH) (p : List Meal) :
    List MLNode × (Option MealStreamerH × Option GError) :=
  MealStreamerH.writeMealsLoopH W h ⟨b.head, b.tailVal, b.d⟩ p

/-- The first-arrival anchoring invariant of the meal streamer: the
stored anchor `tailVal` is exactly the chronologically first record of
the open window (the last element of the newest-first `head` list), and
is absent exactly when the window is empty. -/
def mealAnchorInv (s : MealStreamer) : Prop :=
  s.tailVal = s.head.getLast?

/-- Full window invariant for the meal streamer: first-arrival anchoring,
every window record within `d` of the anchor, and every batch already
handed to the store non-empty with span `< d`. -/
def mealWindowInv (d : Int) (s : MealStreamer) : Prop :=
  mealAnchorInv s ∧
  (∀ a, s.tailVal = some a → ∀ r ∈ s.head, r.time - a.time < d) ∧
  (∀ B ∈ s.sent, B ≠ [] ∧ spanLtM d B)

/-- Every batch in a store log is non-empty and spans strictly less than
`d`, calibration side. -/
def calSentInv (d : Int) (L : List (List CalibrationRead)) : Prop :=
  ∀ B ∈ L, B ≠ [] ∧ spanLtC d B

/-- A concrete stream of 201 records with strictly increasing timestamps
that all fall into one grid window of duration 1000. -/
def calP201 : List CalibrationRead :=
  (List.range 201).map fun (k : Nat) => ⟨(k : Int), (k : Int)⟩

theorem mem_of_getLast?_eq {α : Type} {l : List α} {a : α}
    (h : l.getLast? = some a) : a ∈ l := by
  cases l with
  | nil => simp at h
  | cons x xs =>
    rw [List.getLast?_eq_getLast_of_ne_nil (by simp)] at h
    injection h with h
    rw [← h]
    exact List.getLast_mem _

theorem mem_of_head?_eq {α : Type} {l : List α} {a : α}
    (h : l.head? = some a) : a ∈ l := by
  cases l with
  | nil => simp at h
  | cons x xs => injection h with h; rw [← h]; exact List.mem_cons_self _ _

theorem take_succ_of_drop_cons {α : Type} :
    ∀ (l : List α) (n : Nat) (a : α) (t : List α),
      l.drop n = a :: t → l.take (n + 1) = l.take n ++ [a]
  | [], n, a, t, h => by simp at h
  | x :: l, 0, a, t, h => by
    simp only [List.drop_zero] at h
    rw [h]
    rfl
  | x :: l, n + 1, a, t, h => by
    simp only [List.drop_succ_cons] at h
    simp only [List.take_succ_cons, take_succ_of_drop_cons l n a t h]
    rfl

theorem drop_succ_of_drop_cons {α : Type} {l : List α} {n : Nat} {a : α}
    {t : List α} (h : l.drop n = a :: t) : l.drop (n + 1) = t := by
  have h₁ : l.drop (n + 1) = (l.drop n).drop 1 := by
    rw [List.drop_drop]
  rw [h₁, h]
  rfl

theorem lt_length_of_drop_cons {α : Type} {l : List α} {n : Nat} {a : α}
    {t : List α} (h : l.drop n = a :: t) : n < l.length := by
  by_contra hc
  rw [List.drop_eq_nil_iff.mpr (by omega)] at h
  cases h

theorem truncTime_le (t d : Int) (hd : 0 < d) : truncTime t d ≤ t := by
  unfold truncTime
  rw [if_neg (by omega)]
  have := Int.emod_nonneg t (by omega : d ≠ 0)
  omega

theorem sub_truncTime_lt (t d : Int) (hd : 0 < d) : t - truncTime t d < d := by
  unfold truncTime
  rw [if_neg (by omega)]
  have := Int.emod_lt_of_pos t hd
  omega

theorem sub_truncTime_nonneg (t d : Int) (hd : 0 < d) : 0 ≤ t - truncTime t d := by
  unfold truncTime
  rw [if_neg (by omega)]
  have := Int.emod_nonneg t (by omega : d ≠ 0)
  omega

theorem spanLtC_of_bounds {d t : Int} {B : List CalibrationRead}
    (hb : ∀ r ∈ B, 0 ≤ r.time - t ∧ r.time - t < d) : spanLtC d B := by
  intro x y hx hy
  have h₁ := hb x (mem_of_head?_eq hx)
  have h₂ := hb y (mem_of_getLast?_eq hy)
  omega

instance : IsTrans CalibrationRead (fun x y => x.time < y.time) :=
  ⟨fun _ _ _ h₁ h₂ => lt_trans h₁ h₂⟩

instance : IsTrans Meal (fun x y => x.time < y.time) :=
  ⟨fun _ _ _ h₁ h₂ => lt_trans h₁ h₂⟩

theorem calPairwise_of_chain {p : List CalibrationRead}
    (h : List.Chain' (fun x y => x.time < y.time) p) :
    List.Pairwise (fun x y => x.time ≤ y.time) p :=
  (List.chain'_iff_pairwise.mp h).imp le_of_lt

theorem cal_flush_full (b : CalibrationReadStreamer) (h : b.err = none) :
    CalibrationReadStreamer.Flush WCok b =
      ({ b with buf := [],
                sent := b.sent ++ (if b.buf = [] then [] else [b.buf]) }, none) := by
  unfold CalibrationReadStreamer.Flush
  rw [h]
  simp only
  by_cases hb : b.buf = []
  · rw [if_pos hb, if_pos (by rw [hb]; rfl)]
    cases b
    simp_all
  · have hlen : ¬ (b.buf.length = 0) := by
      simpa [List.length_eq_zero] using hb
    rw [if_neg hb, if_neg hlen]
    have hcond : ¬ ((WCok b.buf).1 < 1 ∧ (WCok b.buf).2 = none) := by
      simp only [WCok, not_and]
      intro hlt
      omega
    rw [if_neg hcond]
    rfl

theorem cal_flush_none_inv {W : CalStore} {b b₁ : CalibrationReadStreamer}
    (h : CalibrationReadStreamer.Flush W b = (b₁, none)) :
    b₁.err = none ∧ b₁.buf = [] := by
  unfold CalibrationReadStreamer.Flush at h
  cases he : b.err with
  | some e => rw [he] at h; cases h
  | none =>
    rw [he] at h
    simp only at h
    by_cases hl : b.buf.length = 0
    · rw [if_pos hl] at h
      injection h with h₁ _
      rw [← h₁]
      exact ⟨he, List.length_eq_zero.mp hl⟩
    · rw [if_neg hl] at h
      cases hcl : (if (W b.buf).1 < 1 ∧ (W b.buf).2 = none
          then some GError.shortWrite else (W b.buf).2) with
      | some e => rw [hcl] at h; cases h
      | none =>
        rw [hcl] at h
        injection h with h₁ _
        rw [← h₁]
        exact ⟨rfl, rfl⟩

theorem cal_flush_empty (W : CalStore) (b : CalibrationReadStreamer)
    (h₁ : b.err = none) (h₂ : b.buf = []) :
    CalibrationReadStreamer.Flush W b = (b, none) := by
  unfold CalibrationReadStreamer.Flush
  rw [h₁, if_pos (by rw [h₂]; rfl)]

theorem meal_flush_wok (s : MealStreamer) :
    MealStreamer.Flush Wok s =
      (some (newMealStreamerDuration [] none s.d
        (s.sent ++ (if s.head = [] then [] else [s.head.reverse]))), none) := by
  unfold MealStreamer.Flush
  by_cases hb : s.head = []
  · simp [hb, Wok, newMealStreamerDuration]
  · simp [hb, Wok, newMealStreamerDuration, List.length_pos]

theorem meal_flush_some_inv {W : MealStore} {b g : MealStreamer}
    (h : MealStreamer.Flush W b = (some g, none)) :
    g.head = [] ∧ g.tailVal = none ∧ g.d = b.d := by
  unfold MealStreamer.Flush at h
  by_cases hb : 0 < b.head.reverse.length
  · rw [if_pos hb] at h
    cases hw : W b.head.reverse with
    | some e => rw [hw] at h; cases h
    | none =>
      rw [hw] at h
      injection h with h₁ _
      injection h₁ with h₁
      rw [← h₁]
      exact ⟨rfl, rfl, rfl⟩
  · rw [if_neg hb] at h
    injection h with h₁ _
    injection h₁ with h₁
    rw [← h₁]
    exact ⟨rfl, rfl, rfl⟩

theorem meal_flush_fail {W : MealStore} {b : MealStreamer} {e : GError}
    (hw : b.head ≠ []) (hW : W b.head.reverse = some e) :
    MealStreamer.Flush W b = (none, some e) := by
  unfold MealStreamer.Flush
  rw [if_pos (by simpa [List.length_pos] using hw), hW]

/-- C2: the claim's short-write retention is the intent (and matches the
code's own doc comment promising an error on any short write), but the
implementation guards only `n < 1 && err == nil`: at the failing input —
a flush of two buffered records for which the store reports one record
committed and a nil error — the code records no fault, reports success,
and clears the whole buffer instead of retaining the uncommitted record. -/
theorem c2_partial_commit_without_error :
    CalibrationReadStreamer.Flush (fun _ => (1, none))
        { buf := [⟨0, 0⟩, ⟨30, 1⟩], bufLen := BUFFER_SIZE, t := 0, d := 60,
          err := none, sent := [] } =
      ({ buf := [], bufLen := BUFFER_SIZE, t := 0, d := 60, err := none,
         sent := [[⟨0, 0⟩, ⟨30, 1⟩]] }, none) := by decide

/-- C3: once a flush has recorded an error, `Flush` returns that same
stored error without invoking the store or changing the state (the result
is independent of the store behaviour `W`), and `WriteCalibration`
returns count 0 with the same error and the buffer unmodified. -/
theorem c3_sticky_fault (W : CalStore) (b : CalibrationReadStreamer) (e : GError)
    (c : CalibrationRead) (h : b.err = some e) :
    CalibrationReadStreamer.Flush W b = (b, some e) ∧
    b.WriteCalibration W c = some (b, 0, some e) := by
  constructor
  · unfold CalibrationReadStreamer.Flush
    rw [h]
  · unfold CalibrationReadStreamer.WriteCalibration
    rw [h]

theorem c3_sticky_fault_witness :
    CalibrationReadStreamer.Flush WCok
        { buf := [⟨0, 0⟩], bufLen := BUFFER_SIZE, t := 0, d := 60,
          err := some GError.shortWrite, sent := [] } =
      ({ buf := [⟨0, 0⟩], bufLen := BUFFER_SIZE, t := 0, d := 60,
         err := some GError.shortWrite, sent := [] }, some GError.shortWrite) ∧
    CalibrationReadStreamer.WriteCalibration WCok
        { buf := [⟨0, 0⟩], bufLen := BUFFER_SIZE, t := 0, d := 60,
          err := some GError.shortWrite, sent := [] } ⟨5, 5⟩ =
      some ({ buf := [⟨0, 0⟩], bufLen := BUFFER_SIZE, t := 0, d := 60,
              err := some GError.shortWrite, sent := [] }, 0, some GError.shortWrite) :=
  c3_sticky_fault WCok _ GError.shortWrite ⟨5, 5⟩ rfl

/-- C4 (corrected): on a store failure the meal streamer's `Flush` does
not yield a new state carrying the uncommitted records — it returns a nil
streamer together with the error, discarding the buffered window. -/
theorem c4_failed_flush_discards (W : MealStore) (b : MealStreamer) (e : GError)
    (hw : b.head ≠ []) (hW : W b.head.reverse = some e) :
    MealStreamer.Flush W b = (none, some e) :=
  meal_flush_fail hw hW

/-- C4: counterexample to the claim as stated — at a concrete non-empty
window whose batch write fails, `Flush` returns no new state object at
all (`none`), so no state carries forward the uncommitted suffix. -/
theorem c4_counterexample :
    (MealStreamer.Flush (fun _ => some (GError.store 7))
        (newMealStreamerDuration [⟨0, 0⟩] (some ⟨0, 0⟩) 60 [])).1 = none ∧
    (newMealStreamerDuration [⟨0, 0⟩] (some ⟨0, 0⟩) 60 []).head ≠ [] := by decide

theorem c4_witness :
    (newMealStreamerDuration [⟨7, 1⟩] (some ⟨7, 1⟩) 60 []).head ≠ [] ∧
    MealStreamer.Flush (fun _ => some (GError.store 9))
        (newMealStreamerDuration [⟨7, 1⟩] (some ⟨7, 1⟩) 60 []) =
      (none, some (GError.store 9)) :=
  ⟨by decide, c4_failed_flush_discards _ _ _ (by decide) rfl⟩

/-- C5: the anchor of a new window is the first record's timestamp
truncated down to a multiple of the configured duration, and on the
concrete scenario (duration 60, records at 0, 30, 60, 90 in one write
call) the crossing at 60 flushes `[0, 30]`, leaves `[60, 90]` buffered in
a window anchored at 60, and `Close` then flushes `[60, 90]`. -/
theorem c5_grid_aligned_anchoring :
    (∀ (b : CalibrationReadStreamer) (r : CalibrationRead),
        (b.resetFirstReadOfBatch r).t = truncTime r.time b.d) ∧
    (NewCalibrationReadStreamerDuration 60).WriteCalibrations WCok
        [⟨0, 0⟩, ⟨30, 1⟩, ⟨60, 2⟩, ⟨90, 3⟩] =
      some ({ buf := [⟨60, 2⟩, ⟨90, 3⟩], bufLen := BUFFER_SIZE, t := 60, d := 60,
              err := none, sent := [[⟨0, 0⟩, ⟨30, 1⟩]] }, 4, none) ∧
    CalibrationReadStreamer.Close WCok none
        { buf := [⟨60, 2⟩, ⟨90, 3⟩], bufLen := BUFFER_SIZE, t := 60, d := 60,
          err := none, sent := [[⟨0, 0⟩, ⟨30, 1⟩]] } =
      ({ buf := [], bufLen := BUFFER_SIZE, t := 60, d := 60, err := none,
         sent := [[⟨0, 0⟩, ⟨30, 1⟩], [⟨60, 2⟩, ⟨90, 3⟩]] }, none) :=
  ⟨fun b r => rfl, by decide, by decide⟩

/-- C9: with an empty buffer (`n == 0`), `WriteCalibrations` on an empty
input unconditionally reads the first element of `p`; the out-of-bounds
access is reachable and the call is modelled as `none`. -/
theorem c9_unguarded_empty_input (W : CalStore) (b : CalibrationReadStreamer)
    (h : b.buf = []) :
    b.WriteCalibrations W [] = none := by
  unfold CalibrationReadStreamer.WriteCalibrations
  rw [if_pos (by rw [h]; rfl)]

theorem c9_witness :
    (NewCalibrationReadStreamerDuration 60).buf = [] ∧
    (NewCalibrationReadStreamerDuration 60).WriteCalibrations WCok [] = none :=
  ⟨rfl, c9_unguarded_empty_input WCok _ rfl⟩

theorem meal_flush_empty (W : MealStore) (g : MealStreamer) (h : g.head = []) :
    MealStreamer.Flush W g =
      (some (newMealStreamerDuration [] none g.d g.sent), none) := by
  unfold MealStreamer.Flush
  simp [h]

/-- C7: once a `Close` has completed without error, a second `Close`
submits no batch to the store (the state, including the ghost log of
store-received batches, is returned unchanged) and returns no error —
for both the calibration streamer and the meal streamer. -/
theorem c7_idempotent_close :
    (∀ (W : CalStore) (wf : Option GError) (b b₁ : CalibrationReadStreamer),
        CalibrationReadStreamer.Close W wf b = (b₁, none) →
        CalibrationReadStreamer.Close W wf b₁ = (b₁, none)) ∧
    (∀ (W : MealStore) (wf : Option GError) (b g : MealStreamer),
        MealStreamer.Close W wf b = (some g, none) →
        MealStreamer.Close W wf g = (some g, none)) := by
  constructor
  · intro W wf b b₁ h
    rcases hf : CalibrationReadStreamer.Flush W b with ⟨bf, ef⟩
    unfold CalibrationReadStreamer.Close at h
    rw [hf] at h
    cases ef with
    | some e => cases h
    | none =>
      injection h with h₁ h₂
      have h₁ : bf = b₁ := h₁
      subst h₁
      subst h₂
      obtain ⟨herr, hbuf⟩ := cal_flush_none_inv hf
      unfold CalibrationReadStreamer.Close
      rw [cal_flush_empty W bf herr hbuf]
  · intro W wf b g h
    rcases hf : MealStreamer.Flush W b with ⟨gf, ef⟩
    unfold MealStreamer.Close at h
    rw [hf] at h
    cases gf with
    | none =>
      cases ef with
      | some e => cases h
      | none => cases h
    | some g' =>
      cases ef with
      | some e => cases h
      | none =>
        injection h with h₁ h₂
        have h₁ : g' = g := by injection h₁
        subst h₁
        subst h₂
        obtain ⟨hh, ht, _⟩ := meal_flush_some_inv hf
        have hgeq : newMealStreamerDuration [] none g'.d g'.sent = g' := by
          cases g'
          simp_all [newMealStreamerDuration]
        unfold MealStreamer.Close
        rw [meal_flush_empty W g' hh, hgeq]

theorem c7_idempotent_close_witness :
    CalibrationReadStreamer.Close WCok none (NewCalibrationReadStreamerDuration 60) =
      (NewCalibrationReadStreamerDuration 60, none) ∧
    CalibrationReadStreamer.Close WCok none (NewCalibrationReadStreamerDuration 60) =
      (NewCalibrationReadStreamerDuration 60, none) ∧
    MealStreamer.Close Wok none (NewMealStreamerDuration 60) =
      (some (NewMealStreamerDuration 60), none) :=
  ⟨by decide,
   c7_idempotent_close.1 WCok none (NewCalibrationReadStreamerDuration 60)
     (NewCalibrationReadStreamerDuration 60) (by decide),
   c7_idempotent_close.2 Wok none (NewMealStreamerDuration 60)
     (NewMealStreamerDuration 60) (by decide)⟩

theorem meal_flush_commit {W : MealStore} {b : MealStreamer}
    (hw : b.head ≠ []) (hW : W b.head.reverse = none) :
    MealStreamer.Flush W b =
      (some (newMealStreamerDuration [] none b.d (b.sent ++ [b.head.reverse])), none) := by
  unfold MealStreamer.Flush
  rw [if_pos (by simpa [List.length_pos] using hw), hW]

theorem writeMealsLoop_anchorInv (W : MealStore) :
    ∀ (p : List Meal) (s s₁ : MealStreamer), mealAnchorInv s →
      MealStreamer.writeMealsLoop W s p = some (some s₁, none) → mealAnchorInv s₁ := by
  intro p
  induction p with
  | nil =>
    intro s s₁ hinv h
    unfold MealStreamer.writeMealsLoop at h
    injection h with h
    injection h with h _
    injection h with h
    rw [← h]
    exact hinv
  | cons c rest ih =>
    intro s s₁ hinv h
    unfold MealStreamer.writeMealsLoop at h
    by_cases hh : s.head = []
    · rw [if_pos hh] at h
      refine ih _ _ ?_ h
      unfold mealAnchorInv newMealStreamerDuration
      rfl
    · rw [if_neg hh] at h
      cases ht : s.tailVal with
      | none => rw [ht] at h; cases h
      | some a =>
        rw [ht] at h
        simp only at h
        by_cases hcr : s.d ≤ c.time - a.time
        · rw [if_pos hcr] at h
          rcases hfl : MealStreamer.Flush W s with ⟨gf, ef⟩
          rw [hfl] at h
          cases gf with
          | none =>
            cases ef with
            | some e => cases h
            | none => cases h
          | some s₂ =>
            cases ef with
            | some e =>
              injection h with h
              injection h with _ h
              cases h
            | none =>
              refine ih _ _ ?_ h
              unfold mealAnchorInv newMealStreamerDuration
              rfl
        · rw [if_neg hcr] at h
          refine ih _ _ ?_ h
          obtain ⟨x, xs, hx⟩ := List.exists_cons_of_ne_nil hh
          simp only [mealAnchorInv, newMealStreamerDuration] at hinv ⊢
          rw [ht, hx] at hinv
          rw [hx, List.getLast?_cons_cons]
          exact hinv

/-- C6: first-arrival anchoring of the meal streamer — with an open
window anchored at `a`, a record `c` within the duration is appended with
the anchor unchanged, a record with `c.time - a.time ≥ d` flushes exactly
the existing window (not including `c`) and opens a brand-new window
whose anchor is `c`'s exact, untruncated timestamp; and across any
`WriteMeals` call the anchor remains exactly the chronologically first
record of the open window (`mealAnchorInv`). -/
theorem c6_first_arrival_anchoring (W : MealStore) (b : MealStreamer) (a c : Meal)
    (hw : b.head ≠ []) (ha : b.tailVal = some a) :
    (c.time - a.time < b.d →
        b.WriteMeal W c =
          some (some (newMealStreamerDuration (c :: b.head) (some a) b.d b.sent), none)) ∧
    (b.d ≤ c.time - a.time → W b.head.reverse = none →
        b.WriteMeal W c =
          some (some (newMealStreamerDuration [c] (some c) b.d
            (b.sent ++ [b.head.reverse])), none)) ∧
    (∀ (p : List Meal) (s₁ : MealStreamer), mealAnchorInv b →
        b.WriteMeals W p = some (some s₁, none) → mealAnchorInv s₁) := by
  have hcopy : newMealStreamerDuration b.head b.tailVal b.d b.sent = b := by
    cases b
    rfl
  refine ⟨?_, ?_, ?_⟩
  · intro hlt
    unfold MealStreamer.WriteMeal MealStreamer.WriteMeals
    rw [hcopy]
    unfold MealStreamer.writeMealsLoop
    rw [if_neg hw, ha]
    simp only
    rw [if_neg (by omega : ¬ (b.d ≤ c.time - a.time))]
    unfold MealStreamer.writeMealsLoop
    rfl
  · intro hge hW
    unfold MealStreamer.WriteMeal MealStreamer.WriteMeals
    rw [hcopy]
    unfold MealStreamer.writeMealsLoop
    rw [if_neg hw, ha]
    simp only
    rw [if_pos hge, meal_flush_commit hw hW]
    unfold MealStreamer.writeMealsLoop
    rfl
  · intro p s₁ hinv h
    unfold MealStreamer.WriteMeals at h
    rw [hcopy] at h
    exact writeMealsLoop_anchorInv W p b s₁ hinv h

theorem c6_first_arrival_anchoring_witness :
    ((⟨30, 7⟩ : Meal).time - (⟨0, 3⟩ : Meal).time <
        (newMealStreamerDuration [⟨0, 3⟩] (some ⟨0, 3⟩) 60 []).d →
      (newMealStreamerDuration [⟨0, 3⟩] (some ⟨0, 3⟩) 60 []).WriteMeal Wok ⟨30, 7⟩ =
        some (some (newMealStreamerDuration [⟨30, 7⟩, ⟨0, 3⟩] (some ⟨0, 3⟩) 60 []), none)) ∧
    ((newMealStreamerDuration [⟨0, 3⟩] (some ⟨0, 3⟩) 60 []).d ≤
        (⟨30, 7⟩ : Meal).time - (⟨0, 3⟩ : Meal).time →
      Wok [⟨0, 3⟩] = none →
      (newMealStreamerDuration [⟨0, 3⟩] (some ⟨0, 3⟩) 60 []).WriteMeal Wok ⟨30, 7⟩ =
        some (some (newMealStreamerDuration [⟨30, 7⟩] (some ⟨30, 7⟩) 60 [[⟨0, 3⟩]]), none)) ∧
    (∀ (p : List Meal) (s₁ : MealStreamer),
        mealAnchorInv (newMealStreamerDuration [⟨0, 3⟩] (some ⟨0, 3⟩) 60 []) →
        (newMealStreamerDuration [⟨0, 3⟩] (some ⟨0, 3⟩) 60 []).WriteMeals Wok p =
          some (some s₁, none) → mealAnchorInv s₁) :=
  c6_first_arrival_anchoring Wok
    (newMealStreamerDuration [⟨0, 3⟩] (some ⟨0, 3⟩) 60 []) ⟨0, 3⟩ ⟨30, 7⟩
    (by decide) rfl

theorem writeMealsLoop_wok (d : Int) (hd : 0 < d) :
    ∀ (p : List Meal) (s : MealStreamer), s.d = d → mealWindowInv d s →
      ∃ s₁, MealStreamer.writeMealsLoop Wok s p = some (some s₁, none) ∧
        s₁.d = d ∧ mealWindowInv d s₁ ∧
        s₁.sent.flatten ++ s₁.head.reverse = s.sent.flatten ++ s.head.reverse ++ p := by
  intro p
  induction p with
  | nil =>
    intro s hsd hinv
    exact ⟨s, rfl, hsd, hinv, by simp⟩
  | cons c rest ih =>
    intro s hsd hinv
    obtain ⟨hanchor, hbound, hsent⟩ := hinv
    by_cases hh : s.head = []
    · obtain ⟨s₁, hrun, hd₁, hinv₁, hacc⟩ :=
        ih (newMealStreamerDuration [c] (some c) s.d s.sent) hsd
          ⟨rfl, by
            intro a₀ ha₀ r hr
            simp only [newMealStreamerDuration] at ha₀ hr
            injection ha₀ with ha₀
            rw [List.mem_singleton] at hr
            rw [← ha₀, hr]
            omega, hsent⟩
      refine ⟨s₁, ?_, hd₁, hinv₁, ?_⟩
      · unfold MealStreamer.writeMealsLoop
        rw [if_pos hh]
        exact hrun
      · rw [hacc]
        simp [newMealStreamerDuration, hh]
    · have ha : ∃ a, s.tailVal = some a := by
        rw [hanchor, List.getLast?_eq_getLast_of_ne_nil hh]
        exact ⟨_, rfl⟩
      obtain ⟨a, ha⟩ := ha
      have hbatch_head : s.head.reverse.head? = some a := by
        rw [List.head?_reverse, ← hanchor, ha]
      have hbatchinv : s.head.reverse ≠ [] ∧ spanLtM d s.head.reverse := by
        constructor
        · simpa using hh
        · intro x y hx hy
          have hxa : x = a := by
            rw [hbatch_head] at hx
            injection hx with hx
            exact hx.symm
          have hy' : y ∈ s.head := List.mem_reverse.mp (mem_of_getLast?_eq hy)
          rw [hxa]
          exact hbound a ha y hy'
      by_cases hcr : s.d ≤ c.time - a.time
      · obtain ⟨s₁, hrun, hd₁, hinv₁, hacc⟩ :=
          ih (newMealStreamerDuration [c] (some c) s.d (s.sent ++ [s.head.reverse])) hsd
            ⟨rfl, by
              intro a₀ ha₀ r hr
              simp only [newMealStreamerDuration] at ha₀ hr
              injection ha₀ with ha₀
              rw [List.mem_singleton] at hr
              rw [← ha₀, hr]
              omega, by
              intro B hB
              simp only [newMealStreamerDuration] at hB
              rw [List.mem_append] at hB
              rcases hB with hB | hB
              · exact hsent B hB
              · rw [List.mem_singleton] at hB
                rw [hB]
                exact hbatchinv⟩
        refine ⟨s₁, ?_, hd₁, hinv₁, ?_⟩
        · unfold MealStreamer.writeMealsLoop
          rw [if_neg hh, ha]
          simp only
          rw [if_pos hcr, meal_flush_wok s, if_neg hh]
          exact hrun
        · rw [hacc]
          simp [newMealStreamerDuration]
      · obtain ⟨s₁, hrun, hd₁, hinv₁, hacc⟩ :=
          ih (newMealStreamerDuration (c :: s.head) s.tailVal s.d s.sent) hsd
            ⟨by
              obtain ⟨x, xs, hx⟩ := List.exists_cons_of_ne_nil hh
              simp only [mealAnchorInv, newMealStreamerDuration]
              rw [hx, List.getLast?_cons_cons, ← hx, ← hanchor], by
              intro a₀ ha₀ r hr
              simp only [newMealStreamerDuration] at ha₀ hr
              have ha₀' : a₀ = a := by
                rw [ha₀] at ha
                injection ha with ha
              rw [ha₀']
              rcases List.mem_cons.mp hr with hr | hr
              · rw [hr]
                omega
              · exact hbound a ha r hr, hsent⟩
        refine ⟨s₁, ?_, hd₁, hinv₁, ?_⟩
        · unfold MealStreamer.writeMealsLoop
          rw [if_neg hh, ha]
          simp only
          rw [if_neg hcr, ← ha]
          exact hrun
        · rw [hacc]
          simp [newMealStreamerDuration]

theorem writeLoop_noCross (W : CalStore) (p : List CalibrationRead) :
    ∀ (rest : List CalibrationRead) (b : CalibrationReadStreamer) (i j nn : Nat),
      (∀ c ∈ rest, c.time - b.t < b.d) →
      CalibrationReadStreamer.writeLoop W p rest b i j nn =
        ({ b with buf := b.buf ++
              (p.drop i).take (min (b.bufLen - b.buf.length) (p.drop i).length) },
         nn + min (b.bufLen - b.buf.length) (p.drop i).length, none) := by
  intro rest
  induction rest with
  | nil => intro b i j nn h; rfl
  | cons c rest ih =>
    intro b i j nn h
    unfold CalibrationReadStreamer.writeLoop
    rw [if_neg (by have := h c (List.mem_cons_self c rest); omega)]
    exact ih b i (j + 1) nn (fun x hx => h x (List.mem_cons_of_mem c hx))

theorem seg_append_drop (p : List CalibrationRead) (i j : Nat) (hij : i ≤ j) :
    (p.drop i).take (j - i) ++ p.drop j = p.drop i := by
  have h₁ : (p.drop i).drop (j - i) = p.drop j := by
    rw [List.drop_drop]
    congr 1
    omega
  rw [← h₁]
  exact List.take_append_drop (j - i) (p.drop i)

theorem writeLoop_wcok (d : Int) (hd : 0 < d) (p : List CalibrationRead) :
    ∀ (rest : List CalibrationRead) (b : CalibrationReadStreamer) (i j nn : Nat),
      rest = p.drop j → i ≤ j → j ≤ p.length →
      b.d = d → b.err = none →
      b.buf.length + (p.length - i) ≤ b.bufLen →
      (∀ r ∈ b.buf ++ (p.drop i).take (j - i), 0 ≤ r.time - b.t ∧ r.time - b.t < d) →
      (∀ r ∈ rest, b.t ≤ r.time) →
      List.Pairwise (fun x y => x.time ≤ y.time) rest →
      calSentInv d b.sent →
      ∃ b₁, CalibrationReadStreamer.writeLoop WCok p rest b i j nn =
          (b₁, nn + (p.length - i), none) ∧
        b₁.err = none ∧ b₁.d = d ∧
        (∀ r ∈ b₁.buf, 0 ≤ r.time - b₁.t ∧ r.time - b₁.t < d) ∧
        calSentInv d b₁.sent ∧
        b₁.sent.flatten ++ b₁.buf = b.sent.flatten ++ b.buf ++ p.drop i := by
  intro rest
  induction rest with
  | nil =>
    intro b i j nn h1 h2 h3 h4 h5 h6 h7 h8 h9 h10
    have hj : p.length ≤ j := List.drop_eq_nil_iff.mp h1.symm
    have hlen_drop : (p.drop i).length = p.length - i := by simp
    have hmin0 : min (b.bufLen - b.buf.length) (p.drop i).length = p.length - i := by
      rw [hlen_drop]
      omega
    have h7full : (p.drop i).take (j - i) = p.drop i :=
      List.take_of_length_le (by omega)
    rw [h7full] at h7
    refine ⟨{ b with buf := b.buf ++ p.drop i }, ?_, h5, h4, h7, h10, by simp⟩
    show ({ b with buf := b.buf ++
          (p.drop i).take (min (b.bufLen - b.buf.length) (p.drop i).length) },
        nn + min (b.bufLen - b.buf.length) (p.drop i).length, none) = _
    rw [hmin0, List.take_of_length_le (le_of_eq hlen_drop)]
  | cons c rest' ih =>
    intro b i j nn h1 h2 h3 h4 h5 h6 h7 h8 h9 h10
    have hdropj : p.drop j = c :: rest' := h1.symm
    have hjlt : j < p.length := lt_length_of_drop_cons hdropj
    have hrest' : rest' = p.drop (j + 1) := (drop_succ_of_drop_cons hdropj).symm
    have hlen_drop : (p.drop i).length = p.length - i := by simp
    have hseglen : ((p.drop i).take (j - i)).length = j - i := by
      rw [List.length_take, hlen_drop]
      omega
    have hpair' : List.Pairwise (fun x y => x.time ≤ y.time) rest' :=
      (List.pairwise_cons.mp h9).2
    have hcle : ∀ r ∈ rest', c.time ≤ r.time :=
      (List.pairwise_cons.mp h9).1
    by_cases hcr : b.d ≤ c.time - b.t
    · -- boundary crossing: copy the pending segment, flush, re-anchor
      unfold CalibrationReadStreamer.writeLoop
      rw [if_pos hcr]
      simp only
      have hmin : min (b.bufLen - b.buf.length) ((p.drop i).take (j - i)).length
          = j - i := by
        rw [hseglen]
        omega
      rw [hmin, List.take_of_length_le (le_of_eq hseglen)]
      rw [cal_flush_full { b with buf := b.buf ++ (p.drop i).take (j - i) } h5]
      simp only [CalibrationReadStreamer.resetFirstReadOfBatch]
      rw [h5]
      simp only
      obtain ⟨b₁, hrun, hb₁err, hb₁d, hb₁buf, hb₁sent, hb₁acc⟩ :=
        ih { buf := [], bufLen := b.bufLen, t := truncTime c.time b.d, d := b.d,
             err := none,
             sent := b.sent ++ (if b.buf ++ (p.drop i).take (j - i) = [] then []
               else [b.buf ++ (p.drop i).take (j - i)]) }
          j (j + 1) (nn + (j - i)) hrest' (by omega) (by omega) h4 rfl
          (by simp only [List.length_nil]; omega)
          (by
            intro r hr
            show 0 ≤ r.time - truncTime c.time b.d ∧ r.time - truncTime c.time b.d < d
            have hr' : r ∈ ([] : List CalibrationRead) ++
                (p.drop j).take (j + 1 - j) := hr
            simp only [List.nil_append] at hr'
            rw [hdropj] at hr'
            simp only [Nat.add_sub_cancel_left, List.take_succ_cons, List.take_zero,
              List.mem_singleton] at hr'
            rw [hr', h4]
            exact ⟨sub_truncTime_nonneg c.time d hd, sub_truncTime_lt c.time d hd⟩)
          (by
            intro r hr
            show truncTime c.time b.d ≤ r.time
            have h₁ : truncTime c.time b.d ≤ c.time := by
              rw [h4]
              exact truncTime_le c.time d hd
            have h₂ := hcle r hr
            omega)
          hpair'
          (by
            intro B hB
            rw [List.mem_append] at hB
            rcases hB with hB | hB
            · exact h10 B hB
            · by_cases hbe : b.buf ++ (p.drop i).take (j - i) = []
              · rw [if_pos hbe] at hB
                simp at hB
              · rw [if_neg hbe] at hB
                rw [List.mem_singleton] at hB
                rw [hB]
                exact ⟨hbe, spanLtC_of_bounds h7⟩)
      rw [show nn + (p.length - i) = nn + (j - i) + (p.length - j) by omega]
      refine ⟨b₁, hrun, hb₁err, hb₁d, hb₁buf, hb₁sent, ?_⟩
      rw [hb₁acc]
      by_cases hbe : b.buf ++ (p.drop i).take (j - i) = []
      · rw [if_pos hbe]
        have hbb : b.buf = [] := by
          rcases List.append_eq_nil.mp hbe with ⟨hx, _⟩
          exact hx
        have hseg0 : ((p.drop i).take (j - i)).length = 0 := by
          rcases List.append_eq_nil.mp hbe with ⟨_, hy⟩
          rw [hy]
          rfl
        have hij : i = j := by
          rw [hseglen] at hseg0
          omega
        rw [hbb, hij]
        simp
      · rw [if_neg hbe]
        simp only [List.append_nil, List.flatten_append, List.flatten_cons,
          List.flatten_nil, List.nil_append, List.append_assoc]
        rw [seg_append_drop p i j h2]
    · -- no crossing: keep accumulating into the open window
      unfold CalibrationReadStreamer.writeLoop
      rw [if_neg hcr]
      have hseg1 : (p.drop i).take (j + 1 - i) = (p.drop i).take (j - i) ++ [c] := by
        rw [show j + 1 - i = (j - i) + 1 by omega]
        apply take_succ_of_drop_cons (p.drop i) (j - i) c rest'
        rw [List.drop_drop]
        rw [show i + (j - i) = j by omega]
        exact hdropj
      obtain ⟨b₁, hrun, hb₁err, hb₁d, hb₁buf, hb₁sent, hb₁acc⟩ :=
        ih b i (j + 1) nn hrest' (by omega) (by omega) h4 h5 h6
          (by
            intro r hr
            rw [hseg1] at hr
            rcases List.mem_append.mp hr with hr | hr
            · exact h7 r (List.mem_append.mpr (Or.inl hr))
            · rcases List.mem_append.mp hr with hr | hr
              · exact h7 r (List.mem_append.mpr (Or.inr hr))
              · rw [List.mem_singleton] at hr
                have h₁ := h8 c (List.mem_cons_self c rest')
                rw [hr]
                rw [h4] at hcr
                constructor
                · omega
                · omega)
          (fun r hr => h8 r (List.mem_cons_of_mem c hr))
          hpair' h10
      exact ⟨b₁, hrun, hb₁err, hb₁d, hb₁buf, hb₁sent, hb₁acc⟩

theorem meal_batch_ok {d : Int} {s : MealStreamer} (hh : s.head ≠ [])
    (hanchor : mealAnchorInv s)
    (hbound : ∀ a, s.tailVal = some a → ∀ r ∈ s.head, r.time - a.time < d) :
    s.head.reverse ≠ [] ∧ spanLtM d s.head.reverse := by
  have ha : ∃ a, s.tailVal = some a := by
    rw [hanchor, List.getLast?_eq_getLast_of_ne_nil hh]
    exact ⟨_, rfl⟩
  obtain ⟨a, ha⟩ := ha
  have hbatch_head : s.head.reverse.head? = some a := by
    rw [List.head?_reverse, ← hanchor, ha]
  constructor
  · simpa using hh
  · intro x y hx hy
    have hxa : x = a := by
      rw [hbatch_head] at hx
      injection hx with hx
      exact hx.symm
    have hy' : y ∈ s.head := List.mem_reverse.mp (mem_of_getLast?_eq hy)
    rw [hxa]
    exact hbound a ha y hy'

theorem meal_total_delivery (d : Int) (p : List Meal) (hd : 0 < d)
    (_hchain : List.Chain' (fun x y => x.time < y.time) p) :
    ∃ s₁ s₂, (NewMealStreamerDuration d).WriteMeals Wok p = some (some s₁, none) ∧
      MealStreamer.Close Wok none s₁ = (some s₂, none) ∧
      s₂.sent.flatten = p ∧ (∀ B ∈ s₂.sent, B ≠ [] ∧ spanLtM d B) := by
  have hinv₀ : mealWindowInv d (NewMealStreamerDuration d) := by
    refine ⟨rfl, ?_, ?_⟩
    · intro a₀ ha₀
      cases ha₀
    · intro B hB
      cases hB
  obtain ⟨s₁, hrun, hd₁, ⟨hanchor, hbound, hsent⟩, hacc⟩ :=
    writeMealsLoop_wok d hd p (NewMealStreamerDuration d) rfl hinv₀
  simp only [NewMealStreamerDuration, newMealStreamerDuration, List.flatten_nil,
    List.reverse_nil, List.nil_append, List.append_nil] at hacc
  refine ⟨s₁, newMealStreamerDuration [] none s₁.d
      (s₁.sent ++ (if s₁.head = [] then [] else [s₁.head.reverse])), hrun, ?_, ?_, ?_⟩
  · unfold MealStreamer.Close
    rw [meal_flush_wok s₁]
  · simp only [newMealStreamerDuration]
    by_cases hh : s₁.head = []
    · rw [if_pos hh]
      rw [hh] at hacc
      simpa using hacc
    · rw [if_neg hh]
      rw [List.flatten_append, List.flatten_cons, List.flatten_nil]
      simpa using hacc
  · intro B hB
    simp only [newMealStreamerDuration] at hB
    rw [List.mem_append] at hB
    rcases hB with hB | hB
    · exact hsent B hB
    · by_cases hh : s₁.head = []
      · rw [if_pos hh] at hB
        cases hB
      · rw [if_neg hh] at hB
        rw [List.mem_singleton] at hB
        rw [hB]
        exact meal_batch_ok hh hanchor hbound

theorem cal_total_delivery (d : Int) (p : List CalibrationRead) (hd : 0 < d)
    (hchain : List.Chain' (fun x y => x.time < y.time) p) (hne : p ≠ [])
    (hfit : p.length ≤ BUFFER_SIZE) :
    ∃ s₁ s₂, (NewCalibrationReadStreamerDuration d).WriteCalibrations WCok p =
        some (s₁, p.length, none) ∧
      CalibrationReadStreamer.Close WCok none s₁ = (s₂, none) ∧
      s₂.sent.flatten = p ∧ calSentInv d s₂.sent := by
  obtain ⟨c, p', hp⟩ := List.exists_cons_of_ne_nil hne
  subst hp
  have hpl := calPairwise_of_chain hchain
  obtain ⟨b₁, hrun, hb₁err, hb₁d, hb₁buf, hb₁sent, hb₁acc⟩ :=
    writeLoop_wcok d hd (c :: p') (c :: p')
      { buf := [], bufLen := BUFFER_SIZE, t := truncTime c.time d, d := d,
        err := none, sent := [] }
      0 0 0 (List.drop_zero _).symm (by omega) (by omega) rfl rfl
      (by simpa using hfit)
      (by
        intro r hr
        simp at hr)
      (by
        intro r hr
        show truncTime c.time d ≤ r.time
        have h₁ : truncTime c.time d ≤ c.time := truncTime_le c.time d hd
        rcases List.mem_cons.mp hr with hr | hr
        · rw [hr]
          exact h₁
        · have h₂ := (List.pairwise_cons.mp hpl).1 r hr
          omega)
      hpl
      (by
        intro B hB
        cases hB)
  rw [show 0 + ((c :: p').length - 0) = (c :: p').length by omega] at hrun
  simp only [List.drop_zero, List.flatten_nil, List.nil_append] at hb₁acc
  refine ⟨b₁, ({ b₁ with buf := [], sent := b₁.sent ++ (if b₁.buf = [] then [] else [b₁.buf]) } : CalibrationReadStreamer), ?_, ?_, ?_, ?_⟩
  · have hw : CalibrationReadStreamer.WriteCalibrations WCok
        (NewCalibrationReadStreamerDuration d) (c :: p') =
        some (CalibrationReadStreamer.writeLoop WCok (c :: p') (c :: p')
          { buf := [], bufLen := BUFFER_SIZE, t := truncTime c.time d, d := d,
            err := none, sent := [] } 0 0 0) := rfl
    rw [hw, hrun]
  · unfold CalibrationReadStreamer.Close
    rw [cal_flush_full b₁ hb₁err]
  · by_cases hb : b₁.buf = []
    · rw [if_pos hb]
      rw [hb] at hb₁acc
      simpa using hb₁acc
    · rw [if_neg hb]
      rw [List.flatten_append, List.flatten_cons, List.flatten_nil, List.append_nil]
      exact hb₁acc
  · intro B hB
    simp only at hB
    rw [List.mem_append] at hB
    rcases hB with hB | hB
    · exact hb₁sent B hB
    · by_cases hb : b₁.buf = []
      · rw [if_pos hb] at hB
        cases hB
      · rw [if_neg hb] at hB
        rw [List.mem_singleton] at hB
        rw [hB]
        exact ⟨hb, spanLtC_of_bounds hb₁buf⟩

/-- C1 (amended): with an always-successful store, the meal streamer
delivers every record exactly once, in order, in non-empty windows
spanning strictly less than the duration; the calibration streamer does
the same provided the write call is non-empty and the record count fits
the fixed buffer capacity `BUFFER_SIZE` (without that bound the claim
fails, see the counterexample). -/
theorem c1_no_loss_no_duplication :
    (∀ (d : Int) (p : List Meal), 0 < d →
        List.Chain' (fun x y => x.time < y.time) p →
        ∃ s₁ s₂, (NewMealStreamerDuration d).WriteMeals Wok p = some (some s₁, none) ∧
          MealStreamer.Close Wok none s₁ = (some s₂, none) ∧
          s₂.sent.flatten = p ∧ (∀ B ∈ s₂.sent, B ≠ [] ∧ spanLtM d B)) ∧
    (∀ (d : Int) (p : List CalibrationRead), 0 < d →
        List.Chain' (fun x y => x.time < y.time) p → p ≠ [] →
        p.length ≤ BUFFER_SIZE →
        ∃ s₁ s₂, (NewCalibrationReadStreamerDuration d).WriteCalibrations WCok p =
            some (s₁, p.length, none) ∧
          CalibrationReadStreamer.Close WCok none s₁ = (s₂, none) ∧
          s₂.sent.flatten = p ∧ calSentInv d s₂.sent) :=
  ⟨meal_total_delivery, cal_total_delivery⟩

theorem c1_no_loss_no_duplication_witness :
    (∃ s₁ s₂, (NewMealStreamerDuration 60).WriteMeals Wok
          [⟨0, 0⟩, ⟨30, 1⟩, ⟨60, 2⟩] = some (some s₁, none) ∧
        MealStreamer.Close Wok none s₁ = (some s₂, none) ∧
        s₂.sent.flatten = [⟨0, 0⟩, ⟨30, 1⟩, ⟨60, 2⟩] ∧
        (∀ B ∈ s₂.sent, B ≠ [] ∧ spanLtM 60 B)) ∧
    (∃ s₁ s₂, (NewCalibrationReadStreamerDuration 60).WriteCalibrations WCok
          [⟨0, 0⟩, ⟨30, 1⟩, ⟨60, 2⟩] =
          some (s₁, ([⟨0, 0⟩, ⟨30, 1⟩, ⟨60, 2⟩] : List CalibrationRead).length, none) ∧
        CalibrationReadStreamer.Close WCok none s₁ = (s₂, none) ∧
        s₂.sent.flatten = [⟨0, 0⟩, ⟨30, 1⟩, ⟨60, 2⟩] ∧ calSentInv 60 s₂.sent) :=
  ⟨c1_no_loss_no_duplication.1 60 [⟨0, 0⟩, ⟨30, 1⟩, ⟨60, 2⟩] (by decide)
     (by norm_num [List.chain'_cons]),
   c1_no_loss_no_duplication.2 60 [⟨0, 0⟩, ⟨30, 1⟩, ⟨60, 2⟩] (by decide)
     (by norm_num [List.chain'_cons]) (by decide) (by decide)⟩

theorem calP201_write :
    (NewCalibrationReadStreamerDuration 1000).WriteCalibrations WCok calP201 =
      some ({ buf := calP201.take 200, bufLen := BUFFER_SIZE, t := truncTime 0 1000,
              d := 1000, err := none, sent := [] }, 200, none) := by
  have hlen : calP201.length = 201 := by
    simp only [calP201, List.length_map, List.length_range]
  have htrunc : truncTime 0 1000 = (0 : Int) := by decide
  have hcond : ∀ r ∈ calP201, r.time - truncTime 0 1000 < 1000 := by
    intro r hr
    simp only [calP201, List.mem_map, List.mem_range] at hr
    obtain ⟨k, hk, hfk⟩ := hr
    subst hfk
    rw [htrunc]
    show (k : Int) - 0 < 1000
    omega
  have hw : (NewCalibrationReadStreamerDuration 1000).WriteCalibrations WCok calP201 =
      some (CalibrationReadStreamer.writeLoop WCok calP201 calP201
        { buf := [], bufLen := BUFFER_SIZE, t := truncTime 0 1000, d := 1000,
          err := none, sent := [] } 0 0 0) := rfl
  rw [hw, writeLoop_noCross WCok calP201 calP201 _ 0 0 0 hcond]
  simp only [List.drop_zero, List.nil_append, List.length_nil, Nat.sub_zero, hlen]
  norm_num [BUFFER_SIZE]

theorem calP201_length : calP201.length = 201 := by
  simp only [calP201, List.length_map, List.length_range]

theorem calP201_chain : List.Chain' (fun x y => x.time < y.time) calP201 := by
  unfold calP201
  rw [List.chain'_map]
  refine List.Chain'.imp ?_ (List.pairwise_lt_range 201).chain'
  intro a b h
  show (a : Int) < (b : Int)
  exact_mod_cast h

/-- C10: silent capacity truncation — 201 records that all fall into one
open window, written into a fresh streamer whose buffer capacity is
`BUFFER_SIZE = 200`, yield a returned count of 200 with a nil error: the
excess record is not buffered, not sent to the store, and no error is
reported or recorded. -/
theorem c10_silent_capacity_truncation :
    ∃ s, (NewCalibrationReadStreamerDuration 1000).WriteCalibrations WCok calP201 =
        some (s, 200, none) ∧
      200 < calP201.length ∧ s.buf = calP201.take 200 ∧ s.sent = [] ∧
      s.err = none ∧ s.buf.length < calP201.length := by
  refine ⟨_, calP201_write, ?_, rfl, rfl, rfl, ?_⟩
  · rw [calP201_length]
    omega
  · show (calP201.take 200).length < calP201.length
    rw [List.length_take, calP201_length]
    omega

/-- C1: counterexample to the claim as stated — a sequence of 201 records
with strictly increasing timestamps, positive duration 1000, every batch
write fully successful, yet the store receives only 200 records in total
across the write call and the final close. -/
theorem c1_counterexample :
    List.Chain' (fun x y => x.time < y.time) calP201 ∧ (0 : Int) < 1000 ∧
    ∃ s₁ s₂, (NewCalibrationReadStreamerDuration 1000).WriteCalibrations WCok calP201 =
        some (s₁, 200, none) ∧
      CalibrationReadStreamer.Close WCok none s₁ = (s₂, none) ∧
      s₂.sent.flatten.length = 200 ∧ calP201.length = 201 := by
  refine ⟨calP201_chain, by omega, ?_⟩
  refine ⟨{ buf := calP201.take 200, bufLen := BUFFER_SIZE, t := truncTime 0 1000, d := 1000, err := none, sent := [] }, { buf := [], bufLen := BUFFER_SIZE, t := truncTime 0 1000, d := 1000, err := none, sent := [] ++ (if calP201.take 200 = [] then [] else [calP201.take 200]) }, calP201_write, ?_, ?_, calP201_length⟩
  · have hclose := cal_flush_full { buf := calP201.take 200, bufLen := BUFFER_SIZE, t := truncTime 0 1000, d := 1000, err := none, sent := [] } rfl
    unfold CalibrationReadStreamer.Close
    rw [hclose]
  · have hne : ¬ (calP201.take 200 = ([] : List CalibrationRead)) := by
      intro h
      have := congrArg List.length h
      rw [List.length_take, calP201_length] at this
      simp at this
    show (([] : List (List CalibrationRead)) ++
        (if calP201.take 200 = [] then [] else [calP201.take 200])).flatten.length = 200
    rw [if_neg hne]
    simp only [List.nil_append, List.flatten_cons, List.flatten_nil, List.append_nil]
    rw [List.length_take, calP201_length]
    omega

theorem flushH_heap (W : MealStore) (h : List MLNode) (s : MealStreamerH) :
    (MealStreamerH.Flush W h s).1 = h := by
  unfold MealStreamerH.Flush
  by_cases hb : 0 < (nodesFrom h h.length s.head).reverse.length
  · rw [if_pos hb]
    cases W (nodesFrom h h.length s.head).reverse <;> rfl
  · rw [if_neg hb]

theorem nodesFrom_none (h : List MLNode) (fuel : Nat) :
    nodesFrom h fuel none = [] := by
  cases fuel <;> rfl

theorem nodesFrom_append (h ext : List MLNode) (hwf : heapWF h) :
    ∀ (fuel a : Nat), a < h.length →
      nodesFrom (h ++ ext) fuel (some a) = nodesFrom h fuel (some a) := by
  intro fuel
  induction fuel with
  | zero => intro a ha; rfl
  | succ g ih =>
    intro a ha
    unfold nodesFrom
    rw [List.getElem?_append_left ha]
    cases hnd : h[a]? with
    | none => rfl
    | some nd =>
      simp only
      cases hnx : nd.next with
      | none => rw [nodesFrom_none, nodesFrom_none]
      | some b =>
        have hb : b < a := hwf a b nd hnd hnx
        rw [ih b (by omega)]

theorem nodesFrom_fuel (h : List MLNode) (hwf : heapWF h) :
    ∀ (a f₁ f₂ : Nat), a < f₁ → a < f₂ →
      nodesFrom h f₁ (some a) = nodesFrom h f₂ (some a) := by
  intro a
  induction a using Nat.strong_induction_on with
  | _ a ih =>
    intro f₁ f₂ h₁ h₂
    obtain ⟨g₁, rfl⟩ : ∃ g, f₁ = g + 1 := ⟨f₁ - 1, by omega⟩
    obtain ⟨g₂, rfl⟩ : ∃ g, f₂ = g + 1 := ⟨f₂ - 1, by omega⟩
    unfold nodesFrom
    cases hnd : h[a]? with
    | none => rfl
    | some nd =>
      simp only
      cases hnx : nd.next with
      | none => rw [nodesFrom_none, nodesFrom_none]
      | some b =>
        have hb : b < a := hwf a b nd hnd hnx
        rw [ih b hb g₁ g₂ (by omega) (by omega)]

theorem heapWF_append (h : List MLNode) (nxt : Option Nat) (v : Meal)
    (hwf : heapWF h) (hn : ∀ b, nxt = some b → b < h.length) :
    heapWF (h ++ [⟨nxt, v⟩]) := by
  intro i b nd hi hnx
  by_cases hlt : i < h.length
  · rw [List.getElem?_append_left hlt] at hi
    exact hwf i b nd hi hnx
  · by_cases heq : i = h.length
    · subst heq
      rw [List.getElem?_concat_length] at hi
      injection hi with hi
      rw [← hi] at hnx
      have := hn b hnx
      omega
    · rw [List.getElem?_eq_none (by simp; omega)] at hi
      cases hi

theorem writeMealsLoopH_ext (W : MealStore) :
    ∀ (p : List Meal) (h : List MLNode) (s : MealStreamerH),
      heapWF h → (∀ a, s.head = some a → a < h.length) →
      ∃ ext, (MealStreamerH.writeMealsLoopH W h s p).1 = h ++ ext ∧
        heapWF (h ++ ext) := by
  intro p
  induction p with
  | nil =>
    intro h s hwf hs
    exact ⟨[], by simp [MealStreamerH.writeMealsLoopH], by simpa using hwf⟩
  | cons c rest ih =>
    intro h s hwf hs
    cases hhd : s.head with
    | none =>
      have hwf₁ : heapWF (h ++ [⟨none, c⟩]) :=
        heapWF_append h none c hwf (by intro b hb; cases hb)
      obtain ⟨ext', heq', hwf'⟩ :=
        ih (h ++ [⟨none, c⟩]) ⟨some h.length, some c, s.d⟩ hwf₁
          (by
            intro a ha
            injection ha with ha
            rw [← ha]
            simp)
      refine ⟨⟨none, c⟩ :: ext', ?_, ?_⟩
      · unfold MealStreamerH.writeMealsLoopH
        rw [hhd]
        simp only [NewImmutableList]
        rw [heq', List.append_assoc]
        rfl
      · rw [show h ++ ⟨none, c⟩ :: ext' = (h ++ [⟨none, c⟩]) ++ ext' by simp]
        exact hwf'
    | some addr =>
      cases htv : s.tailVal with
      | none =>
        refine ⟨[], ?_, by simpa using hwf⟩
        unfold MealStreamerH.writeMealsLoopH
        rw [hhd, htv]
        simp
      | some a =>
        by_cases hcr : s.d ≤ c.time - a.time
        · rcases hfl : MealStreamerH.Flush W h s with ⟨h₁, st, er⟩
          have hh₁ : h₁ = h := by
            have hx := flushH_heap W h s
            rw [hfl] at hx
            exact hx
          subst hh₁
          cases st with
          | some s₂ =>
            cases er with
            | none =>
              have hwf₁ : heapWF (h₁ ++ [⟨none, c⟩]) :=
                heapWF_append h₁ none c hwf (by intro b hb; cases hb)
              obtain ⟨ext', heq', hwf'⟩ :=
                ih (h₁ ++ [⟨none, c⟩]) ⟨some h₁.length, some c, s₂.d⟩ hwf₁
                  (by
                    intro a' ha'
                    injection ha' with ha'
                    rw [← ha']
                    simp)
              refine ⟨⟨none, c⟩ :: ext', ?_, ?_⟩
              · unfold MealStreamerH.writeMealsLoopH
                rw [hhd, htv]
                simp only
                rw [if_pos hcr, hfl]
                simp only
                simp only [NewImmutableList]
                rw [heq', List.append_assoc]
                rfl
              · rw [show h₁ ++ ⟨none, c⟩ :: ext' = (h₁ ++ [⟨none, c⟩]) ++ ext' by simp]
                exact hwf'
            | some e =>
              refine ⟨[], ?_, by simpa using hwf⟩
              unfold MealStreamerH.writeMealsLoopH
              rw [hhd, htv]
              simp only
              rw [if_pos hcr, hfl]
              simp
          | none =>
            cases er with
            | none =>
              refine ⟨[], ?_, by simpa using hwf⟩
              unfold MealStreamerH.writeMealsLoopH
              rw [hhd, htv]
              simp only
              rw [if_pos hcr, hfl]
              simp
            | some e =>
              refine ⟨[], ?_, by simpa using hwf⟩
              unfold MealStreamerH.writeMealsLoopH
              rw [hhd, htv]
              simp only
              rw [if_pos hcr, hfl]
              simp
        · have haddr : addr < h.length := hs addr hhd
          obtain ⟨ext', heq', hwf'⟩ :=
            ih (h ++ [⟨some addr, c⟩]) ⟨some h.length, some a, s.d⟩
              (heapWF_append h (some addr) c hwf (by
                intro b hb
                injection hb with hb
                omega))
              (by
                intro a' ha'
                injection ha' with ha'
                rw [← ha']
                simp)
          refine ⟨⟨some addr, c⟩ :: ext', ?_, ?_⟩
          · unfold MealStreamerH.writeMealsLoopH
            rw [hhd, htv]
            simp only
            rw [if_neg hcr]
            simp only [NewImmutableList]
            rw [heq', List.append_assoc]
            rfl
          · rw [show h ++ ⟨some addr, c⟩ :: ext' = (h ++ [⟨some addr, c⟩]) ++ ext' by simp]
            exact hwf'

/-- C8: snapshot immutability of the versioned accumulator — running
`WriteMeals` over the explicit allocation heap only ever extends the heap
(every address a caller already holds still resolves to the same node),
so a caller still holding the old streamer value `s` observes the same
head pointer, the same `tailVal`, and the same buffered records
(`nodesFrom` readout) before and after the call, for every store
behaviour, heap, starting state, and input. -/
theorem c8_snapshot_immutability (W : MealStore) (h : List MLNode)
    (s : MealStreamerH) (p : List Meal) (hwf : heapWF h)
    (hs : ∀ a, s.head = some a → a < h.length) :
    (∀ i, i < h.length → ((MealStreamerH.writeMealsH W h s p).1)[i]? = h[i]?) ∧
    nodesFrom (MealStreamerH.writeMealsH W h s p).1
        (MealStreamerH.writeMealsH W h s p).1.length s.head =
      nodesFrom h h.length s.head := by
  obtain ⟨ext, heq, hwf'⟩ :=
    writeMealsLoopH_ext W p h ⟨s.head, s.tailVal, s.d⟩ hwf hs
  have heq' : (MealStreamerH.writeMealsH W h s p).1 = h ++ ext := heq
  constructor
  · intro i hi
    rw [heq']
    exact List.getElem?_append_left hi
  · rw [heq']
    cases hhd : s.head with
    | none => rw [nodesFrom_none, nodesFrom_none]
    | some a =>
      have ha : a < h.length := hs a hhd
      have hlen : a < (h ++ ext).length := by
        rw [List.length_append]
        omega
      calc nodesFrom (h ++ ext) (h ++ ext).length (some a)
          = nodesFrom (h ++ ext) (a + 1) (some a) :=
            nodesFrom_fuel (h ++ ext) hwf' a (h ++ ext).length (a + 1) hlen (by omega)
        _ = nodesFrom h (a + 1) (some a) :=
            nodesFrom_append h ext hwf (a + 1) a ha
        _ = nodesFrom h h.length (some a) :=
            nodesFrom_fuel h hwf a (a + 1) h.length (by omega) ha

theorem c8_snapshot_immutability_witness :
    (∀ i, i < ([] : List MLNode).length →
        ((MealStreamerH.writeMealsH Wok [] ⟨none, none, 60⟩
          [⟨0, 0⟩, ⟨90, 1⟩]).1)[i]? = ([] : List MLNode)[i]?) ∧
    nodesFrom (MealStreamerH.writeMealsH Wok [] ⟨none, none, 60⟩ [⟨0, 0⟩, ⟨90, 1⟩]).1
        (MealStreamerH.writeMealsH Wok [] ⟨none, none, 60⟩ [⟨0, 0⟩, ⟨90, 1⟩]).1.length
        (⟨none, none, 60⟩ : MealStreamerH).head =
      nodesFrom [] ([] : List MLNode).length (⟨none, none, 60⟩ : MealStreamerH).head :=
  c8_snapshot_immutability Wok [] ⟨none, none, 60⟩ [⟨0, 0⟩, ⟨90, 1⟩]
    (fun i b nd hi _ => by simp at hi)
    (fun a ha => Option.noConfusion ha)
